import Mathlib

/-!
Verification development for the Google Play Store dashboard (`app.py`).

The only component with real logic is the cleaning pipeline in `load_data`
(lines 41-78), the filter layer (lines 103-114), and the KPI/aggregate glue.
We embed the pipeline shallowly:

* A pandas cell is modelled by `PVal`: missing (`NaN`/null), a finite number
  (exact rationals in place of float64), a signed infinity, or a string.
* `pd.to_numeric(..., errors := coerce)` is modelled by `toNumeric`/`floatParse`,
  restricted to plain decimal literals (optional sign, digits, one decimal
  point) plus the strings "inf" and "-inf"; all other strings coerce to null,
  exactly as non-parseable strings coerce to NaN.
* `astype(str)` on a cell is `pyStr`; on numbers it renders an exact decimal
  expansion (`fmtFloat`), which round-trips through parsing just as Python's
  shortest round-trip float repr does.
* A DataFrame is a `List Row`; in-place column assignments become `List.map`,
  `drop`/`dropna` become `List.filter`.
-/

namespace PlayStore

/-- A cell of a pandas column: null (`NaN`), a finite number (exact rational
model of float64), a signed infinity (`inf b` with `b = true` for `+inf`),
or a string. -/
inductive PVal where
  | null : PVal
  | num : ℚ → PVal
  | inf : Bool → PVal
  | str : String → PVal
deriving DecidableEq, Repr

/-- One record of the googleplaystore.csv table, restricted to the columns
the script touches: App, Category, Rating, Reviews, Size, Installs, Type,
Price, plus the derived Popularity_Score column (meaningless on raw rows,
assigned by the pipeline). -/
@[ext]
structure Row where
  app : PVal
  category : PVal
  rating : PVal
  reviews : PVal
  size : PVal
  installs : PVal
  type : PVal
  price : PVal
  popularityScore : PVal
deriving DecidableEq, Repr

/-- pandas comparison of a cell with a string literal (`df[col] == s`):
true only on an equal string cell, false on numbers/null (as in pandas). -/
def eqStrB (v : PVal) (s : String) : Bool :=
  match v with
  | .str t => t = s
  | _ => false

/-- Is the cell null (`NaN`)?  This is what `dropna` tests. -/
def isNullB (v : PVal) : Bool :=
  match v with
  | .null => true
  | _ => false

/-! ### Numeric string parsing (`pd.to_numeric(..., errors := coerce)`) -/

/-- ASCII decimal digit test. -/
def isDigitC (c : Char) : Bool :=
  decide ('0' ≤ c) && decide (c ≤ '9')

/-- Numeric value of a digit character. -/
def digVal (c : Char) : ℕ := c.toNat - '0'.toNat

/-- Value of a most-significant-first digit character list. -/
def digitsValC (l : List Char) : ℕ :=
  l.foldl (fun a c => 10 * a + digVal c) 0

/-- Value of a most-significant-first digit list. -/
def digitsValN (l : List ℕ) : ℕ :=
  l.foldl (fun a d => 10 * a + d) 0

/-- Parse an unsigned decimal literal: digits, optionally followed by a
decimal point and further digits, with at least one digit overall.  The
value `I.F` is the exact rational `IF / 10 ^ |F|`, written with `Rat.divInt`
so that it evaluates by kernel reduction. -/
def parseCore (l : List Char) : Option ℚ :=
  if l.dropWhile isDigitC = [] then
    if (l.takeWhile isDigitC).isEmpty then none
    else some ((digitsValC (l.takeWhile isDigitC) : ℚ))
  else if (l.dropWhile isDigitC).head? = some '.' then
    if ((l.dropWhile isDigitC).tail).all isDigitC &&
        !((l.takeWhile isDigitC).isEmpty &&
          ((l.dropWhile isDigitC).tail).isEmpty) then
      some (Rat.divInt
        (digitsValC (l.takeWhile isDigitC ++ (l.dropWhile isDigitC).tail))
        (10 ^ ((l.dropWhile isDigitC).tail).length))
    else none
  else none

/-- Parse a signed decimal literal (the fragment of Python float parsing the
dataset exercises: no exponents, no surrounding whitespace). -/
def parseChars (l : List Char) : Option ℚ :=
  if l.head? = some '-' then (parseCore l.tail).map (fun q => -q)
  else if l.head? = some '+' then parseCore l.tail
  else parseCore l

/-- `pd.to_numeric(s, errors := coerce)` on a string cell: a finite number on
a decimal literal, signed infinity on "inf"/"-inf", and null (NaN) on
everything else. -/
def floatParse (s : String) : PVal :=
  if s = "inf" then .inf true
  else if s = "-inf" then .inf false
  else
    match parseChars s.data with
    | some q => .num q
    | none => .null

/-- `pd.to_numeric(..., errors := coerce)` on a cell: numbers and infinities
pass through, strings are parsed, null stays null. -/
def toNumeric (v : PVal) : PVal :=
  match v with
  | .str s => floatParse s
  | .num q => .num q
  | .inf b => .inf b
  | .null => .null

/-! ### Rendering a cell as a string (`astype(str)`) -/

/-- The digit character for `d` (only digits below 10 arise; everything
from 9 up is mapped to '9'). -/
def digitChar (d : ℕ) : Char :=
  if d = 0 then '0'
  else if d = 1 then '1'
  else if d = 2 then '2'
  else if d = 3 then '3'
  else if d = 4 then '4'
  else if d = 5 then '5'
  else if d = 6 then '6'
  else if d = 7 then '7'
  else if d = 8 then '8'
  else '9'

/-- Base-10 digits of `n`, least significant first (empty for 0). -/
def natDigitsRev (n : ℕ) : List ℕ :=
  if h : n = 0 then [] else n % 10 :: natDigitsRev (n / 10)
termination_by n
decreasing_by exact Nat.div_lt_self (Nat.pos_of_ne_zero h) (by norm_num)

/-- Base-10 digits of `n`, most significant first. -/
def natDigits (n : ℕ) : List ℕ := (natDigitsRev n).reverse

/-- Pad a digit list with leading zeros to length at least `k + 1`. -/
def padDigits (k : ℕ) (l : List ℕ) : List ℕ :=
  List.replicate (k + 1 - l.length) 0 ++ l

/-- The padded digit list of `|N|`, long enough to split `k` fractional
digits off while keeping at least one integer digit. -/
def fmtDigits (N : ℤ) (k : ℕ) : List ℕ :=
  padDigits k (natDigits N.natAbs)

/-- The unsigned body of the decimal rendering of `N / 10 ^ k`: integer
digits, a decimal point, and exactly `k` fractional digits. -/
def fmtBody (N : ℤ) (k : ℕ) : List Char :=
  ((fmtDigits N k).take ((fmtDigits N k).length - k)).map digitChar ++
    '.' :: ((fmtDigits N k).drop ((fmtDigits N k).length - k)).map digitChar

/-- Character rendering of the exact value `N / 10 ^ k`: optional minus sign,
then the body. -/
def fmtDecimal (N : ℤ) (k : ℕ) : List Char :=
  if N < 0 then '-' :: fmtBody N k else fmtBody N k

/-- `str(x)` for a finite float, modelled exactly: render `q` as the decimal
`N / 10 ^ k` with `k = q.den` (exact whenever `q.den` divides a power of ten,
which holds for every number produced by parsing; like Python's float repr,
the rendering parses back to the same value). -/
def fmtFloat (q : ℚ) : String :=
  ⟨fmtDecimal (q.num * ((10 : ℤ) ^ q.den / (q.den : ℤ))) q.den⟩

/-- `astype(str)` on one cell: strings unchanged, numbers rendered, and the
Python spellings `nan`, `inf`, `-inf` for the rest. -/
def pyStr (v : PVal) : String :=
  match v with
  | .str s => s
  | .num q => fmtFloat q
  | .inf b => if b then "inf" else "-inf"
  | .null => "nan"

/-! ### The column transformations of `load_data` (app.py lines 47-76) -/

/-- `str.replace(c, "")` for a one-character pattern: removes every
occurrence. -/
def removeChar (c : Char) (s : String) : String :=
  ⟨s.data.filter (fun x => x ≠ c)⟩

/-- `re.sub("$", repl, s)` (pandas `str.replace` with `regex = True` and the
pattern `$`): the pattern is the end-of-string anchor, which matches the empty
string at the end of `s`, so substitution appends `repl`; in particular with
the empty replacement the string is returned unchanged — no dollar sign is
ever removed. -/
def reSubEndAnchor (s : String) (repl : String) : String :=
  s ++ repl

/-- Lines 52-54: `Installs.astype(str).str.replace("+","").str.replace(",","")`
then `pd.to_numeric(..., errors := coerce)`. -/
def cleanInstallsCell (v : PVal) : PVal :=
  toNumeric (.str (removeChar ',' (removeChar '+' (pyStr v))))

/-- Line 57: `pd.to_numeric(Reviews, errors := coerce)` (no string cast). -/
def cleanReviewsCell (v : PVal) : PVal := toNumeric v

/-- Lines 61-63: `Price.astype(str).str.replace("$","", regex=True)` then
`pd.to_numeric(..., errors := coerce)`.  The regex `$` is an anchor, so the
replace is a no-op (see `reSubEndAnchor`). -/
def cleanPriceCell (v : PVal) : PVal :=
  toNumeric (.str (reSubEndAnchor (pyStr v) ""))

/-- Lines 67-69: strip "M", "k" and "," from `Size`, map the sentinel
"Varies with device" to NaN, then `pd.to_numeric(..., errors := coerce)`. -/
def cleanSizeCell (v : PVal) : PVal :=
  toNumeric
    (if removeChar ',' (removeChar 'k' (removeChar 'M' (pyStr v))) =
        "Varies with device"
     then .null
     else .str (removeChar ',' (removeChar 'k' (removeChar 'M' (pyStr v)))))

/-- Exact rational division `r / i`, written with `Rat.divInt` so that it
evaluates by kernel reduction; `ratDiv_eq_div` below identifies it with field
division on `ℚ`. -/
def ratDiv (r i : ℚ) : ℚ :=
  Rat.divInt (r.num * (i.den : ℤ)) ((r.den : ℤ) * i.num)

/-- Float division as pandas performs it on the Reviews and Installs columns:
`r / 0` is `±inf` (or NaN for `0 / 0`), `r / ±inf` is `0`, otherwise exact. -/
def divVal (x y : PVal) : PVal :=
  match x, y with
  | .num r, .num i =>
      if i = 0 then (if r = 0 then .null else .inf (decide (0 < r)))
      else .num (ratDiv r i)
  | .num _, .inf _ => .num 0
  | .inf b, .num i => if i = 0 then .inf b else .inf (b == decide (0 < i))
  | .inf _, .inf _ => .null
  | _, _ => .null

/-! ### The cleaning pipeline (`load_data`, app.py lines 41-78) -/

/-- Lines 47-48: drop the rows with App = "Life Made Better" and the rows
with Category = "1.9" (the known column-shifted rows). -/
def dropCorrupted (t : List Row) : List Row :=
  (t.filter (fun r => !eqStrB r.app "Life Made Better")).filter
    (fun r => !eqStrB r.category "1.9")

/-- Lines 52-69: the four column conversions, applied to one row. -/
def transformRow (r : Row) : Row :=
  { r with
    installs := cleanInstallsCell r.installs
    reviews := cleanReviewsCell r.reviews
    price := cleanPriceCell r.price
    size := cleanSizeCell r.size }

/-- Line 73: the `dropna` subset — a row survives iff Rating, Installs,
Reviews, Price, Category and Type are all non-null. -/
def essentials (r : Row) : Bool :=
  !isNullB r.rating && !isNullB r.installs && !isNullB r.reviews &&
  !isNullB r.price && !isNullB r.category && !isNullB r.type

/-- Line 76: `df[Popularity_Score] = df[Reviews] / df[Installs]`. -/
def addScore (r : Row) : Row :=
  { r with popularityScore := divVal r.reviews r.installs }

/-- The whole cleaning pipeline of `load_data` (lines 47-76): corrupted-row
drop, column conversions, essential-null drop, popularity derivation. -/
def cleanTable (t : List Row) : List Row :=
  (((dropCorrupted t).map transformRow).filter essentials).map addScore

/-- `load_data` at the cleaned-table boundary: an acquisition failure returns
the empty DataFrame (line 39), success returns the cleaned table. -/
def loadData (acquired : Option (List Row)) : List Row :=
  match acquired with
  | none => []
  | some raw => cleanTable raw

/-! ### The filter layer (app.py lines 103-109) -/

/-- Lines 105-106: keep only the selected category unless "Todas" (all) is
selected. -/
def filterCategory (t : List Row) (selectedCategory : String) : List Row :=
  if selectedCategory ≠ "Todas" then
    t.filter (fun r => eqStrB r.category selectedCategory)
  else t

/-- Lines 103-109: start from a copy of the cleaned table; keep only the
selected category unless "Todas" (all) is selected, then keep only the
selected type unless "Ambos" (both) is selected. -/
def applyFilters (t : List Row) (selectedCategory selectedType : String) :
    List Row :=
  if selectedType ≠ "Ambos" then
    (filterCategory t selectedCategory).filter
      (fun r => eqStrB r.type selectedType)
  else filterCategory t selectedCategory

/-! ### Presentation-layer aggregates (app.py lines 131-244) -/

/-- Exact rational addition in the same kernel-computable normal form as
`ratDiv`; equal to `a + b`. -/
def ratAdd (a b : ℚ) : ℚ :=
  Rat.divInt (a.num * (b.den : ℤ) + b.num * (a.den : ℤ)) ((a.den : ℤ) * b.den)

/-- The finite ratings of a table (pandas `mean` skips NaN). -/
def ratingNums (t : List Row) : List ℚ :=
  t.filterMap (fun r => match r.rating with | .num q => some q | _ => none)

/-- Line 134: `df_filtered[Rating].mean()` — NaN on an empty column. -/
def meanRating (t : List Row) : PVal :=
  let l := ratingNums t
  if l.isEmpty then .null else .num (ratDiv (l.foldl ratAdd 0) (l.length : ℚ))

/-- Strict "greater" on score cells as float64 compares them, with NaN (and
the unreachable string case) never winning — this is how `idxmax` skips NaN. -/
def scoreBeats (x y : PVal) : Bool :=
  match x, y with
  | .num a, .num b => decide (b < a)
  | .num _, .inf b => !b
  | .num _, _ => true
  | .inf true, .inf true => false
  | .inf true, _ => true
  | .inf false, .inf false => false
  | .inf false, .null => true
  | .inf false, .str _ => true
  | .inf false, _ => false
  | _, _ => false

/-- `df.loc[col.idxmax()]`: the first row attaining the maximal cell. -/
def idxmaxBy (beats : Row → Row → Bool) : List Row → Option Row
  | [] => none
  | x :: xs => some (xs.foldl (fun best r => if beats r best then r else best) x)

/-- Is the cell a number `≥ 0` (false on NaN, as in float comparisons)? -/
def scoreGE0 (v : PVal) : Bool :=
  match v with
  | .num q => decide (0 ≤ q)
  | .inf b => b
  | _ => false

/-- Is the cell a number `> 0` (false on NaN)? -/
def scoreGT0 (v : PVal) : Bool :=
  match v with
  | .num q => decide (0 < q)
  | .inf b => b
  | _ => false

/-- Lines 139-143: the most-popular-app KPI.  The guard
`not df_filtered.empty and Popularity_Score.max() >= 0` is modelled by
non-emptiness plus "some score is ≥ 0" (the skipna maximum is ≥ 0 exactly
when some non-null score is ≥ 0, and a NaN maximum fails `>= 0`); when the
guard fails the KPI renders the neutral "N/A" placeholder, here `none`. -/
def kpiMostPopular (t : List Row) : Option Row :=
  if !t.isEmpty && t.any (fun r => scoreGE0 r.popularityScore) then
    idxmaxBy (fun a b => scoreBeats a.popularityScore b.popularityScore) t
  else none

/-- Lines 147-151: the maximum-price KPI, guarded by `Price.max() > 0`; the
neutral placeholder ("$0.00") is `none`. -/
def kpiMaxPrice (t : List Row) : Option Row :=
  if !t.isEmpty && t.any (fun r => scoreGT0 r.price) then
    idxmaxBy (fun a b => scoreBeats a.price b.price) t
  else none

/-- float64 addition with NaN skipped, as pandas `sum` does. -/
def pvAdd (x y : PVal) : PVal :=
  match x, y with
  | .num a, .num b => .num (ratAdd a b)
  | .inf a, .inf b => if a = b then .inf a else .null
  | .inf a, .num _ => .inf a
  | .num _, .inf b => .inf b
  | .null, z => z
  | z, .null => z
  | _, _ => .null

/-- `groupby(Category)[Installs].sum()` (line 167), keyed in first-occurrence
order. -/
def groupInstallsSum (t : List Row) : List (PVal × PVal) :=
  ((t.map (fun r => r.category)).dedup).map
    (fun c => (c, (t.filter (fun r => decide (r.category = c))).foldl
      (fun a r => pvAdd a r.installs) (.num 0)))

/-- Insert a row into an installs-descending list (stable). -/
def insertByInstalls (r : Row) : List Row → List Row
  | [] => [r]
  | x :: xs =>
      if scoreBeats r.installs x.installs then r :: x :: xs
      else x :: insertByInstalls r xs

/-- Line 241: `df_filtered.nlargest(10, Installs)`. -/
def topAppsByInstalls (t : List Row) : List Row :=
  (t.foldr insertByInstalls []).take 10

/-- The aggregate values the presentation layer computes from the filtered
table (lines 131-244). -/
structure Metrics where
  appCount : ℕ
  avgRating : PVal
  mostPopular : Option Row
  maxPrice : Option Row
  installsByCategory : List (PVal × PVal)
  topApps : List Row
deriving DecidableEq, Repr

/-- All presentation aggregates at once. -/
def computeMetrics (t : List Row) : Metrics :=
  { appCount := t.length
    avgRating := meanRating t
    mostPopular := kpiMostPopular t
    maxPrice := kpiMaxPrice t
    installsByCategory := groupInstallsSum t
    topApps := topAppsByInstalls t }

/-- How one session of the script terminates. -/
inductive Outcome where
  | acquisitionFailure : Outcome
  | filterEmpty : Outcome
  | rendered : Metrics → Outcome
deriving DecidableEq, Repr

/-- The script's control flow after `load_data` (lines 81-244): halt with the
acquisition/loading error if the cleaned table is empty (lines 90-92), halt
with the no-data-matches-filters message if the filtered table is empty
(lines 112-114), otherwise render the aggregates. -/
def runPage (acquired : Option (List Row)) (selCat selType : String) :
    Outcome :=
  let df := loadData acquired
  if df.isEmpty then .acquisitionFailure
  else
    let f := applyFilters df selCat selType
    if f.isEmpty then .filterEmpty
    else .rendered (computeMetrics f)

/-! ### Predicates taken from the specification's words

These are *not* translated from the source; they transcribe the spec's
claimed invariant so it can be compared with what the pipeline enforces. -/

/-- Spec wording: "the rating is a finite real in [0,5]". -/
def specRatingInRange (v : PVal) : Bool :=
  match v with
  | .num q => decide (0 ≤ q) && decide (q ≤ 5)
  | _ => false

/-- Spec wording: a non-negative (finite) number. -/
def specNonNegNum (v : PVal) : Bool :=
  match v with
  | .num q => decide (0 ≤ q)
  | _ => false

/-- Spec wording (claim C1): rating in [0,5]; installs, reviews, price
non-negative numbers; category and type non-null. -/
def specRetainedInvariant (r : Row) : Bool :=
  specRatingInRange r.rating && specNonNegNum r.installs &&
  specNonNegNum r.reviews && specNonNegNum r.price &&
  !isNullB r.category && !isNullB r.type

/-- A defined numeric cell: a finite number or an infinity — what a float64
column holds at a non-null position. -/
def numericPresent (v : PVal) : Bool :=
  match v with
  | .num _ => true
  | .inf _ => true
  | _ => false

/-! ### Concrete tables for counterexamples and witnesses -/

/-- A retained row whose rating is 6: outside the spec's [0,5] range. -/
def c1RowA : Row where
  app := .str "AlphaApp"
  category := .str "GAME"
  rating := .num 6
  reviews := .str "50"
  size := .str "12M"
  installs := .str "1,000"
  type := .str "Free"
  price := .str "0"
  popularityScore := .null

/-- A retained row with negative installs, reviews and price. -/
def c1RowB : Row where
  app := .str "BetaApp"
  category := .str "TOOLS"
  rating := .num 4
  reviews := .str "-3"
  size := .str "5M"
  installs := .str "-5"
  type := .str "Paid"
  price := .str "-1"
  popularityScore := .null

/-- A retained row whose rating cell is a (non-null) string. -/
def c1RowC : Row where
  app := .str "GammaApp"
  category := .str "FAMILY"
  rating := .str "high"
  reviews := .str "7"
  size := .str "Varies with device"
  installs := .str "10"
  type := .str "Free"
  price := .str "0"
  popularityScore := .null

def c1Table : List Row := [c1RowA, c1RowB, c1RowC]

/-- `c1RowA` after cleaning. -/
def c1CleanA : Row where
  app := .str "AlphaApp"
  category := .str "GAME"
  rating := .num 6
  reviews := .num 50
  size := .num 12
  installs := .num 1000
  type := .str "Free"
  price := .num 0
  popularityScore := .num (Rat.divInt 1 20)

/-- A raw row whose Installs string is "0": it parses to the number 0 and
survives the null-drop. -/
def c2Row : Row where
  app := .str "ZeroInstalls"
  category := .str "GAME"
  rating := .num 4
  reviews := .str "100"
  size := .str "1M"
  installs := .str "0"
  type := .str "Free"
  price := .str "0"
  popularityScore := .null

def c2Table : List Row := [c2Row]

/-- `c2Row` after cleaning: installs 0, score `+inf` (100 / 0). -/
def c2Clean : Row where
  app := .str "ZeroInstalls"
  category := .str "GAME"
  rating := .num 4
  reviews := .num 100
  size := .num 1
  installs := .num 0
  type := .str "Free"
  price := .num 0
  popularityScore := .inf true

/-- A cleaned-shape GAME/Free row for exercising the filter layer. -/
def c3RowA : Row where
  app := .str "FilterGame"
  category := .str "GAME"
  rating := .num 4
  reviews := .num 10
  size := .num 1
  installs := .num 100
  type := .str "Free"
  price := .num 0
  popularityScore := .num (Rat.divInt 1 10)

/-- A cleaned-shape SOCIAL/Paid row for exercising the filter layer. -/
def c3RowB : Row where
  app := .str "FilterSocial"
  category := .str "SOCIAL"
  rating := .num 3
  reviews := .num 20
  size := .num 2
  installs := .num 200
  type := .str "Paid"
  price := .num 5
  popularityScore := .num (Rat.divInt 1 10)

def c3Table : List Row := [c3RowA, c3RowB]

/-- A raw GAME/Free row: its cleaned table is nonempty but matches no
SOCIAL/Paid filter. -/
def c4Row : Row where
  app := .str "DeltaApp"
  category := .str "GAME"
  rating := .num 4
  reviews := .str "10"
  size := .str "1M"
  installs := .str "100"
  type := .str "Free"
  price := .str "0"
  popularityScore := .null

def c4Table : List Row := [c4Row]

/-- The known corrupted row: App = "Life Made Better". -/
def c5Bad1 : Row where
  app := .str "Life Made Better"
  category := .str "LIFESTYLE"
  rating := .num 4
  reviews := .str "10"
  size := .str "1M"
  installs := .str "100"
  type := .str "Free"
  price := .str "0"
  popularityScore := .null

/-- The known corrupted row: Category = "1.9" (shifted columns). -/
def c5Bad2 : Row where
  app := .str "ShiftedApp"
  category := .str "1.9"
  rating := .num 19
  reviews := .str "3000000"
  size := .str "1M"
  installs := .str "1,000"
  type := .str "Free"
  price := .str "0"
  popularityScore := .null

/-- An ordinary row that should be retained. -/
def c5Good : Row where
  app := .str "GoodApp"
  category := .str "GAME"
  rating := .num 4
  reviews := .str "10"
  size := .str "2M"
  installs := .str "1,000"
  type := .str "Free"
  price := .str "0"
  popularityScore := .null

def c5Table : List Row := [c5Bad1, c5Bad2, c5Good]

/-- `c5Good` after cleaning. -/
def c5GoodClean : Row where
  app := .str "GoodApp"
  category := .str "GAME"
  rating := .num 4
  reviews := .num 10
  size := .num 2
  installs := .num 1000
  type := .str "Free"
  price := .num 0
  popularityScore := .num (Rat.divInt 1 100)

/-- A misaligned raw row whose Installs cell holds the string "Free". -/
def c6Row : Row where
  app := .str "MisalignedApp"
  category := .str "GAME"
  rating := .num 4
  reviews := .str "10"
  size := .str "1M"
  installs := .str "Free"
  type := .str "Free"
  price := .str "0"
  popularityScore := .null

/-- A paid raw row with the dataset's usual "$4.99" price formatting. -/
def c7Row : Row where
  app := .str "PaidApp"
  category := .str "GAME"
  rating := .num 4
  reviews := .str "10"
  size := .str "1M"
  installs := .str "1,000"
  type := .str "Paid"
  price := .str "$4.99"
  popularityScore := .null

/-- A raw row with reviews 100 and installs tier "1,000". -/
def c8Row : Row where
  app := .str "PopApp"
  category := .str "GAME"
  rating := .num 4
  reviews := .str "100"
  size := .str "3M"
  installs := .str "1,000"
  type := .str "Free"
  price := .str "0"
  popularityScore := .null

def c8Table : List Row := [c8Row]

/-- `c8Row` after cleaning: popularity 100 / 1000 = 0.1. -/
def c8Clean : Row where
  app := .str "PopApp"
  category := .str "GAME"
  rating := .num 4
  reviews := .num 100
  size := .num 3
  installs := .num 1000
  type := .str "Free"
  price := .num 0
  popularityScore := .num (Rat.divInt 1 10)

/-- A raw row with a null rating: every row of `[c10Row]` is dropped, so the
cleaned table is empty although acquisition succeeded. -/
def c10Row : Row where
  app := .str "NullRating"
  category := .str "GAME"
  rating := .null
  reviews := .str "10"
  size := .str "1M"
  installs := .str "100"
  type := .str "Free"
  price := .str "0"
  popularityScore := .null

def c10Table : List Row := [c10Row]

/-! ## Lemmas -/

/-- `ratDiv` is field division on `ℚ`. -/
theorem ratDiv_eq_div (r i : ℚ) : ratDiv r i = r / i := by
  unfold ratDiv
  rw [Rat.divInt_eq_div]
  push_cast
  conv_rhs => rw [← Rat.num_div_den r, ← Rat.num_div_den i]
  rw [div_eq_mul_inv ((r.num : ℚ) / (r.den : ℚ)), inv_div, div_mul_div_comm]

theorem addScore_app (x : Row) : (addScore x).app = x.app := rfl

theorem addScore_category (x : Row) : (addScore x).category = x.category := rfl

theorem transformRow_app (x : Row) : (transformRow x).app = x.app := rfl

theorem transformRow_category (x : Row) :
    (transformRow x).category = x.category := rfl

theorem essentials_addScore (x : Row) : essentials (addScore x) = essentials x :=
  rfl

/-- Membership in `dropCorrupted`, unfolded. -/
theorem mem_dropCorrupted {t : List Row} {r : Row} :
    r ∈ dropCorrupted t ↔
      r ∈ t ∧ eqStrB r.app "Life Made Better" = false ∧
        eqStrB r.category "1.9" = false := by
  simp only [dropCorrupted, List.mem_filter, Bool.not_eq_eq_eq_not, Bool.not_true]
  tauto

/-- Every row of the cleaned table arises from a surviving raw row. -/
theorem mem_cleanTable_elim {t : List Row} {r : Row} (h : r ∈ cleanTable t) :
    ∃ r0, r0 ∈ dropCorrupted t ∧ essentials (transformRow r0) = true ∧
      r = addScore (transformRow r0) := by
  simp only [cleanTable, List.mem_map, List.mem_filter] at h
  obtain ⟨x, ⟨hx, hess⟩, hr⟩ := h
  obtain ⟨r0, hr0, hx0⟩ := hx
  exact ⟨r0, hr0, by rw [hx0]; exact hess, by rw [← hr, ← hx0]⟩

/-- A divisor of a power of ten divides the power of ten with its own
exponent (its prime factors are only 2 and 5). -/
theorem dvd_ten_pow_self : ∀ d : ℕ, 0 < d → ∀ k : ℕ, d ∣ 10 ^ k → d ∣ 10 ^ d := by
  intro d
  induction d using Nat.strong_induction_on with
  | _ d ih =>
    intro hd k hdvd
    rcases eq_or_ne d 1 with h1 | h1
    · exact h1 ▸ one_dvd _
    · have hpp : d.minFac.Prime := Nat.minFac_prime h1
      have hpd : d.minFac ∣ d := Nat.minFac_dvd d
      have hp10 : d.minFac ∣ 10 := hpp.dvd_of_dvd_pow (hpd.trans hdvd)
      obtain ⟨m, hm⟩ := hpd
      have hm0 : 0 < m := by
        rcases Nat.eq_zero_or_pos m with h | h
        · rw [h, mul_zero] at hm
          omega
        · exact h
      have hmlt : m < d := by
        have h2 := hpp.two_le
        calc m = 1 * m := (one_mul m).symm
          _ < d.minFac * m := (Nat.mul_lt_mul_right hm0).mpr (by omega)
          _ = d := hm.symm
      have hmdvd : m ∣ 10 ^ k :=
        dvd_trans (Dvd.intro_left d.minFac hm.symm) hdvd
      have ihm : m ∣ 10 ^ m := ih m hmlt hm0 k hmdvd
      have hstep : d ∣ 10 ^ (m + 1) := by
        rw [hm, pow_succ, mul_comm (10 ^ m) 10]
        exact mul_dvd_mul hp10 ihm
      exact hstep.trans (pow_dvd_pow 10 (by omega))

/-- The denominator of any value produced by `parseCore` divides a power of
ten. -/
theorem parseCore_den_dvd {l : List Char} {q : ℚ} (h : parseCore l = some q) :
    ∃ k, (q.den : ℕ) ∣ 10 ^ k := by
  unfold parseCore at h
  split at h
  · split at h
    · exact absurd h (by simp)
    · refine ⟨0, ?_⟩
      have hq : q = ((digitsValC (l.takeWhile isDigitC) : ℕ) : ℚ) :=
        (Option.some.injEq _ _ ▸ h).symm
      have : q.den = 1 := by
        rw [hq]
        exact_mod_cast Rat.den_intCast (digitsValC (l.takeWhile isDigitC))
      simp [this]
  · split at h
    · split at h
      · have hq : q = Rat.divInt
            (digitsValC (l.takeWhile isDigitC ++ (l.dropWhile isDigitC).tail))
            (10 ^ ((l.dropWhile isDigitC).tail).length) :=
          (Option.some.injEq _ _ ▸ h).symm
        refine ⟨((l.dropWhile isDigitC).tail).length, ?_⟩
        have hdvd := Rat.den_dvd
          ((digitsValC (l.takeWhile isDigitC ++
            (l.dropWhile isDigitC).tail) : ℤ))
          ((10 : ℤ) ^ ((l.dropWhile isDigitC).tail).length)
        rw [← hq] at hdvd
        have h10 : ((10 : ℤ) ^ ((l.dropWhile isDigitC).tail).length) =
            ((10 ^ ((l.dropWhile isDigitC).tail).length : ℕ) : ℤ) := by
          push_cast
          ring
        rw [h10] at hdvd
        exact_mod_cast hdvd
      · exact absurd h (by simp)
    · exact absurd h (by simp)

/-- The denominator of any value produced by `parseChars` divides a power of
ten. -/
theorem parseChars_den_dvd {l : List Char} {q : ℚ}
    (h : parseChars l = some q) : ∃ k, (q.den : ℕ) ∣ 10 ^ k := by
  unfold parseChars at h
  split at h
  · obtain ⟨a, ha, hq⟩ := Option.map_eq_some'.mp h
    obtain ⟨k, hk⟩ := parseCore_den_dvd ha
    refine ⟨k, ?_⟩
    rw [← hq, Rat.neg_den]
    exact hk
  · split at h
    · exact parseCore_den_dvd h
    · exact parseCore_den_dvd h

/-- Every numeric value produced by parsing has a decimal denominator in the
strong form used by the round-trip lemma. -/
theorem parseChars_den_dvd_self {l : List Char} {q : ℚ}
    (h : parseChars l = some q) : (q.den : ℕ) ∣ 10 ^ q.den := by
  obtain ⟨k, hk⟩ := parseChars_den_dvd h
  exact dvd_ten_pow_self q.den q.pos k hk

/-- Shape of `floatParse` output: null, an infinity, or a finite number with
decimal denominator. -/
theorem floatParse_shape (s : String) :
    floatParse s = .null ∨ (∃ b, floatParse s = .inf b) ∨
      ∃ q, floatParse s = .num q ∧ (q.den : ℕ) ∣ 10 ^ q.den := by
  unfold floatParse
  split
  · exact Or.inr (Or.inl ⟨true, rfl⟩)
  · split
    · exact Or.inr (Or.inl ⟨false, rfl⟩)
    · split
      next q hq => exact Or.inr (Or.inr ⟨q, rfl, parseChars_den_dvd_self hq⟩)
      next => exact Or.inl rfl

/-- Shape of `toNumeric` output: never a string. -/
theorem toNumeric_shape (v : PVal) :
    toNumeric v = .null ∨ (∃ b, toNumeric v = .inf b) ∨
      ∃ q, toNumeric v = .num q := by
  cases v with
  | null => exact Or.inl rfl
  | num q => exact Or.inr (Or.inr ⟨q, rfl⟩)
  | inf b => exact Or.inr (Or.inl ⟨b, rfl⟩)
  | str s =>
      rcases floatParse_shape s with h | ⟨b, h⟩ | ⟨q, h, _⟩
      · exact Or.inl h
      · exact Or.inr (Or.inl ⟨b, h⟩)
      · exact Or.inr (Or.inr ⟨q, h⟩)

theorem cleanInstallsCell_eq (v : PVal) :
    cleanInstallsCell v =
      floatParse (removeChar ',' (removeChar '+' (pyStr v))) := rfl

theorem cleanReviewsCell_eq (v : PVal) : cleanReviewsCell v = toNumeric v :=
  rfl

theorem cleanPriceCell_eq (v : PVal) :
    cleanPriceCell v = floatParse (reSubEndAnchor (pyStr v) "") := rfl

/-- Shape of a cleaned Size cell. -/
theorem cleanSizeCell_shape (v : PVal) :
    cleanSizeCell v = .null ∨ (∃ b, cleanSizeCell v = .inf b) ∨
      ∃ q, cleanSizeCell v = .num q ∧ (q.den : ℕ) ∣ 10 ^ q.den := by
  unfold cleanSizeCell
  split
  · exact Or.inl rfl
  · exact floatParse_shape _

theorem addScore_rating (x : Row) : (addScore x).rating = x.rating := rfl

theorem addScore_type (x : Row) : (addScore x).type = x.type := rfl

theorem addScore_installs (x : Row) : (addScore x).installs = x.installs := rfl

theorem addScore_reviews (x : Row) : (addScore x).reviews = x.reviews := rfl

theorem addScore_price (x : Row) : (addScore x).price = x.price := rfl

theorem addScore_popularity (x : Row) :
    (addScore x).popularityScore = divVal x.reviews x.installs := rfl

theorem transformRow_rating (x : Row) : (transformRow x).rating = x.rating :=
  rfl

theorem transformRow_type (x : Row) : (transformRow x).type = x.type := rfl

theorem transformRow_installs (x : Row) :
    (transformRow x).installs = cleanInstallsCell x.installs := rfl

theorem transformRow_reviews (x : Row) :
    (transformRow x).reviews = cleanReviewsCell x.reviews := rfl

theorem transformRow_price (x : Row) :
    (transformRow x).price = cleanPriceCell x.price := rfl

theorem transformRow_size (x : Row) :
    (transformRow x).size = cleanSizeCell x.size := rfl

/-- Full decomposition of a cleaned-table row. -/
theorem cleanTable_row_cases {t : List Row} {r : Row} (h : r ∈ cleanTable t) :
    ∃ r0, r0 ∈ t ∧
      eqStrB r0.app "Life Made Better" = false ∧
      eqStrB r0.category "1.9" = false ∧
      essentials (transformRow r0) = true ∧
      r = addScore (transformRow r0) := by
  obtain ⟨r0, hd, hess, hr⟩ := mem_cleanTable_elim h
  obtain ⟨hm, ha, hc⟩ := mem_dropCorrupted.mp hd
  exact ⟨r0, hm, ha, hc, hess, hr⟩

/-- Unpack the `essentials` (dropna) conjunction. -/
theorem essentials_unpack {x : Row} (h : essentials x = true) :
    isNullB x.rating = false ∧ isNullB x.installs = false ∧
    isNullB x.reviews = false ∧ isNullB x.price = false ∧
    isNullB x.category = false ∧ isNullB x.type = false := by
  simp only [essentials, Bool.and_eq_true, Bool.not_eq_true'] at h
  tauto

/-- A non-null cell that cannot be a string is a present numeric value. -/
theorem numericPresent_of {v : PVal} (h : isNullB v = false)
    (hs : v = .null ∨ (∃ b, v = .inf b) ∨ ∃ q, v = .num q) :
    numericPresent v = true := by
  rcases hs with h0 | ⟨b, h0⟩ | ⟨q, h0⟩ <;> subst h0
  · simp [isNullB] at h
  · rfl
  · rfl

/-! ## Claims -/

/-- C1, counterexample: the spec's retained-row invariant (rating in [0,5],
non-negative installs/reviews/price) fails on the code — `c1Table` cleans to
rows with rating 6, a string rating, and negative installs, reviews and
price, all retained. -/
theorem c1_spec_invariant_fails :
    (cleanTable c1Table).all specRetainedInvariant = false := by decide

/-- C1, amended: every row retained by the cleaning pipeline has non-null
rating, category and type, and present numeric (non-null) installs, reviews
and price; the [0,5] rating range and non-negativity are not enforced. -/
theorem cleaning_invariants_amended :
    ∀ (raw : List Row) (r : Row), r ∈ cleanTable raw →
      isNullB r.rating = false ∧ isNullB r.category = false ∧
      isNullB r.type = false ∧ numericPresent r.installs = true ∧
      numericPresent r.reviews = true ∧ numericPresent r.price = true := by
  intro raw r h
  obtain ⟨r0, -, -, -, hess, hr⟩ := cleanTable_row_cases h
  obtain ⟨hrat, hins, hrev, hpr, hcat, hty⟩ := essentials_unpack hess
  subst hr
  refine ⟨hrat, hcat, hty, ?_, ?_, ?_⟩
  · refine numericPresent_of hins ?_
    rw [addScore_installs, transformRow_installs, cleanInstallsCell_eq]
    rcases floatParse_shape (removeChar ','
        (removeChar '+' (pyStr r0.installs))) with h0 | ⟨b, h0⟩ | ⟨q, h0, -⟩
    · exact Or.inl h0
    · exact Or.inr (Or.inl ⟨b, h0⟩)
    · exact Or.inr (Or.inr ⟨q, h0⟩)
  · refine numericPresent_of hrev ?_
    rw [addScore_reviews, transformRow_reviews, cleanReviewsCell_eq]
    exact toNumeric_shape r0.reviews
  · refine numericPresent_of hpr ?_
    rw [addScore_price, transformRow_price, cleanPriceCell_eq]
    rcases floatParse_shape (reSubEndAnchor (pyStr r0.price) "") with
      h0 | ⟨b, h0⟩ | ⟨q, h0, -⟩
    · exact Or.inl h0
    · exact Or.inr (Or.inl ⟨b, h0⟩)
    · exact Or.inr (Or.inr ⟨q, h0⟩)

/-- Witness for C1's amended theorem at the concrete table `c1Table`. -/
theorem cleaning_invariants_amended_witness :
    isNullB c1CleanA.rating = false ∧ isNullB c1CleanA.category = false ∧
    isNullB c1CleanA.type = false ∧ numericPresent c1CleanA.installs = true ∧
    numericPresent c1CleanA.reviews = true ∧
    numericPresent c1CleanA.price = true :=
  cleaning_invariants_amended c1Table c1CleanA (by decide)

/-- C2, counterexample: a raw row whose Installs string is "0" survives the
null-drop with installs = 0, so the popularity divisor can be zero. -/
theorem c2_zero_installs_survives :
    (cleanTable c2Table).map (fun r => r.installs) = [PVal.num 0] := by decide

/-- C2, amended: after the null-drop the installs cell is a present numeric
value but is not guaranteed non-zero; when it is zero the derived score is
not a finite number (infinity, or NaN for 0 / 0) rather than a ratio. -/
theorem installs_may_be_zero_amended :
    ∀ (raw : List Row) (r : Row), r ∈ cleanTable raw →
      numericPresent r.installs = true ∧
      (r.installs = PVal.num 0 →
        r.popularityScore = PVal.null ∨
          ∃ b, r.popularityScore = PVal.inf b) := by
  intro raw r h
  obtain ⟨r0, -, -, -, hess, hr⟩ := cleanTable_row_cases h
  obtain ⟨-, hins, hrev, -, -, -⟩ := essentials_unpack hess
  subst hr
  constructor
  · refine numericPresent_of hins ?_
    rw [addScore_installs, transformRow_installs, cleanInstallsCell_eq]
    rcases floatParse_shape (removeChar ','
        (removeChar '+' (pyStr r0.installs))) with h0 | ⟨b, h0⟩ | ⟨q, h0, -⟩
    · exact Or.inl h0
    · exact Or.inr (Or.inl ⟨b, h0⟩)
    · exact Or.inr (Or.inr ⟨q, h0⟩)
  · intro hzero
    rw [addScore_installs] at hzero
    rw [addScore_popularity, hzero]
    rcases toNumeric_shape r0.reviews with h0 | ⟨b, h0⟩ | ⟨v, h0⟩
    · rw [transformRow_reviews, cleanReviewsCell_eq, h0] at hrev
      simp [isNullB] at hrev
    · rw [transformRow_reviews, cleanReviewsCell_eq, h0]
      exact Or.inr ⟨b, by simp [divVal]⟩
    · rw [transformRow_reviews, cleanReviewsCell_eq, h0]
      rcases eq_or_ne v 0 with hv | hv
      · exact Or.inl (by simp [divVal, hv])
      · exact Or.inr ⟨decide (0 < v), by simp [divVal, hv]⟩

/-- Witness for C2's amended theorem at the concrete table `c2Table`. -/
theorem installs_may_be_zero_amended_witness :
    numericPresent c2Clean.installs = true ∧
    (c2Clean.installs = PVal.num 0 →
      c2Clean.popularityScore = PVal.null ∨
        ∃ b, c2Clean.popularityScore = PVal.inf b) :=
  installs_may_be_zero_amended c2Table c2Clean (by decide)

/-- C3: the filter layer is pure subsetting — for a specific category and a
specific type it returns exactly the rows whose category and type equal the
selections, and selecting "Todas" (all categories) with "Ambos" (both types)
returns the table unchanged. -/
theorem filter_pure_subsetting :
    (∀ (t : List Row) (c ty : String), c ≠ "Todas" → ty ≠ "Ambos" →
      applyFilters t c ty =
        t.filter (fun r => eqStrB r.category c && eqStrB r.type ty)) ∧
    ∀ t : List Row, applyFilters t "Todas" "Ambos" = t := by
  constructor
  · intro t c ty hc hty
    unfold applyFilters filterCategory
    rw [if_pos hty, if_pos hc, List.filter_filter]
    exact List.filter_congr (fun r _ => Bool.and_comm _ _)
  · intro t
    unfold applyFilters filterCategory
    rw [if_neg (by simp), if_neg (by simp)]

/-- Witness for C3 at a concrete two-row table with selections GAME/Free. -/
theorem filter_pure_subsetting_witness :
    applyFilters c3Table "GAME" "Free" =
      c3Table.filter
        (fun r => eqStrB r.category "GAME" && eqStrB r.type "Free") :=
  filter_pure_subsetting.1 c3Table "GAME" "Free" (by decide) (by decide)

/-- C4: a category/type selection matching zero cleaned rows yields the
distinct empty-filter halt (not the acquisition-failure halt, and no
rendered aggregates), and the aggregate computations applied to the empty
table return neutral placeholders instead of raising. -/
theorem empty_filter_shortcircuit :
    ∀ (raw : List Row) (c ty : String), cleanTable raw ≠ [] →
      applyFilters (cleanTable raw) c ty = [] →
      runPage (some raw) c ty = Outcome.filterEmpty ∧
      Outcome.filterEmpty ≠ Outcome.acquisitionFailure ∧
      (∀ m : Metrics, Outcome.filterEmpty ≠ Outcome.rendered m) ∧
      computeMetrics [] = Metrics.mk 0 PVal.null none none [] [] := by
  intro raw c ty hne hemp
  have h1 : (cleanTable raw).isEmpty = false := by
    cases hcl : cleanTable raw with
    | nil => exact absurd hcl hne
    | cons a l => rfl
  refine ⟨?_, by simp, fun m => by simp, by decide⟩
  simp only [runPage, loadData, h1, hemp, Bool.false_eq_true, if_false,
    List.isEmpty_nil, if_true]

/-- Witness for C4: the GAME/Free table `c4Table` filtered by SOCIAL/Paid. -/
theorem empty_filter_shortcircuit_witness :
    runPage (some c4Table) "SOCIAL" "Paid" = Outcome.filterEmpty ∧
    Outcome.filterEmpty ≠ Outcome.acquisitionFailure ∧
    Outcome.filterEmpty ≠ Outcome.rendered (computeMetrics []) ∧
    computeMetrics [] = Metrics.mk 0 PVal.null none none [] [] := by
  have h := empty_filter_shortcircuit c4Table "SOCIAL" "Paid" (by decide)
    (by decide)
  exact ⟨h.1, h.2.1, h.2.2.1 (computeMetrics []), h.2.2.2⟩

/-- C5: no cleaned row has App = "Life Made Better" or Category = "1.9" —
the corrupted-row drops of lines 47-48 are permanent, since no later step
modifies App or Category. -/
theorem corrupted_rows_removed :
    ∀ (raw : List Row) (r : Row), r ∈ cleanTable raw →
      eqStrB r.app "Life Made Better" = false ∧
      eqStrB r.category "1.9" = false := by
  intro raw r h
  obtain ⟨r0, -, ha, hc, -, hr⟩ := cleanTable_row_cases h
  subst hr
  rw [addScore_app, transformRow_app, addScore_category, transformRow_category]
  exact ⟨ha, hc⟩

/-- Witness for C5 at `c5Table`, whose corrupted rows are dropped and whose
good row is retained. -/
theorem corrupted_rows_removed_witness :
    eqStrB c5GoodClean.app "Life Made Better" = false ∧
    eqStrB c5GoodClean.category "1.9" = false :=
  corrupted_rows_removed c5Table c5GoodClean (by decide)

/-- C6: installs normalization maps "10,000+" to the number 10000, maps the
misaligned string "Free" to missing, and a row whose Installs cell is "Free"
is dropped from the cleaned output. -/
theorem installs_normalization :
    cleanInstallsCell (PVal.str "10,000+") = PVal.num 10000 ∧
    cleanInstallsCell (PVal.str "Free") = PVal.null ∧
    cleanTable [c6Row] = [] := ⟨by decide, by decide, by decide⟩

/-- C7: the Price normalization does not strip the dollar sign — the pattern
"$" with `regex = True` is an end anchor, so "$4.99" coerces to missing and
the row is dropped, while "0" parses to 0; stripping the "$" literally (the
code comment's intent) would have produced 4.99. -/
theorem price_regex_anchor_bug :
    cleanPriceCell (PVal.str "$4.99") = PVal.null ∧
    cleanPriceCell (PVal.str "0") = PVal.num 0 ∧
    toNumeric (PVal.str (removeChar '$' "$4.99")) =
      PVal.num (Rat.divInt 499 100) ∧
    cleanTable [c7Row] = [] := ⟨by decide, by decide, by decide, by decide⟩

/-- C8: for every cleaned row with finite reviews `v` and finite non-zero
installs `i`, the derived popularity score is exactly `v / i`. -/
theorem popularity_score_eq_reviews_div_installs :
    ∀ (raw : List Row) (r : Row), r ∈ cleanTable raw → ∀ v i : ℚ,
      r.reviews = PVal.num v → r.installs = PVal.num i → i ≠ 0 →
      r.popularityScore = PVal.num (v / i) := by
  intro raw r h v i hv hi hne
  obtain ⟨r0, -, -, -, -, hr⟩ := cleanTable_row_cases h
  subst hr
  rw [addScore_reviews] at hv
  rw [addScore_installs] at hi
  rw [addScore_popularity, hv, hi]
  simp only [divVal, if_neg hne]
  rw [ratDiv_eq_div]

/-- Witness for C8: the cleaned `c8Row` has reviews 100, installs 1000 and
popularity score 100 / 1000 = 0.1. -/
theorem popularity_score_witness :
    c8Clean.popularityScore = PVal.num ((100 : ℚ) / 1000) :=
  popularity_score_eq_reviews_div_installs c8Table c8Clean (by decide)
    100 1000 (by decide) (by decide) (by decide)

/-- C10: when the cleaned table is empty, `load_data`'s result is the same
empty table it returns on acquisition failure, and the page halts with the
acquisition/loading error for any filter selection. -/
theorem empty_clean_equals_acquisition_failure :
    ∀ raw : List Row, cleanTable raw = [] →
      loadData (some raw) = loadData none ∧
      ∀ c ty : String,
        runPage (some raw) c ty = Outcome.acquisitionFailure := by
  intro raw h
  constructor
  · simp [loadData, h]
  · intro c ty
    simp [runPage, loadData, h]

/-- Witness for C10 at `c10Table` (its one row has a null rating, so the
whole table is dropped). -/
theorem empty_clean_equals_acquisition_failure_witness :
    loadData (some c10Table) = loadData none ∧
    runPage (some c10Table) "Todas" "Ambos" = Outcome.acquisitionFailure := by
  have h := empty_clean_equals_acquisition_failure c10Table (by decide)
  exact ⟨h.1, h.2 "Todas" "Ambos"⟩

/-! ## Round-trip of the decimal rendering through parsing (for C9) -/

theorem natDigitsRev_zero : natDigitsRev 0 = [] := by
  unfold natDigitsRev
  rfl

theorem natDigitsRev_pos {n : ℕ} (h : n ≠ 0) :
    natDigitsRev n = n % 10 :: natDigitsRev (n / 10) := by
  conv_lhs => rw [natDigitsRev]
  rw [dif_neg h]

theorem natDigitsRev_lt : ∀ n : ℕ, ∀ d ∈ natDigitsRev n, d < 10 := by
  intro n
  induction n using Nat.strong_induction_on with
  | _ n ih =>
    rcases eq_or_ne n 0 with h | h
    · subst h
      rw [natDigitsRev_zero]
      intro d hd
      exact absurd hd (List.not_mem_nil d)
    · rw [natDigitsRev_pos h]
      intro d hd
      rcases List.mem_cons.mp hd with h1 | h1
      · subst h1
        exact Nat.mod_lt _ (by norm_num)
      · exact ih (n / 10)
          (Nat.div_lt_self (Nat.pos_of_ne_zero h) (by norm_num)) d h1

theorem foldr_natDigitsRev : ∀ n : ℕ,
    (natDigitsRev n).foldr (fun d a => 10 * a + d) 0 = n := by
  intro n
  induction n using Nat.strong_induction_on with
  | _ n ih =>
    rcases eq_or_ne n 0 with h | h
    · subst h
      rw [natDigitsRev_zero]
      rfl
    · rw [natDigitsRev_pos h, List.foldr_cons,
        ih (n / 10) (Nat.div_lt_self (Nat.pos_of_ne_zero h) (by norm_num))]
      omega

theorem digitsValN_natDigits (n : ℕ) : digitsValN (natDigits n) = n := by
  unfold digitsValN natDigits
  rw [List.foldl_reverse]
  exact foldr_natDigitsRev n

theorem natDigits_lt (n : ℕ) : ∀ d ∈ natDigits n, d < 10 := by
  intro d hd
  exact natDigitsRev_lt n d (List.mem_reverse.mp hd)

theorem foldl_replicate_zero :
    ∀ j : ℕ, List.foldl (fun a d => 10 * a + d) 0 (List.replicate j 0) = 0 := by
  intro j
  induction j with
  | zero => rfl
  | succ j ih => simpa [List.replicate_succ] using ih

theorem digitsValN_padDigits (k : ℕ) (l : List ℕ) :
    digitsValN (padDigits k l) = digitsValN l := by
  unfold digitsValN padDigits
  rw [List.foldl_append, foldl_replicate_zero]

theorem padDigits_length (k : ℕ) (l : List ℕ) :
    (padDigits k l).length = max (k + 1) l.length := by
  simp only [padDigits, List.length_append, List.length_replicate]
  omega

theorem padDigits_lt (k : ℕ) {l : List ℕ} (h : ∀ d ∈ l, d < 10) :
    ∀ d ∈ padDigits k l, d < 10 := by
  intro d hd
  rcases List.mem_append.mp hd with h1 | h1
  · rw [List.eq_of_mem_replicate h1]
    norm_num
  · exact h d h1

theorem fmtDigits_lt (N : ℤ) (k : ℕ) : ∀ d ∈ fmtDigits N k, d < 10 :=
  padDigits_lt k (natDigits_lt N.natAbs)

theorem fmtDigits_length (N : ℤ) (k : ℕ) : k + 1 ≤ (fmtDigits N k).length := by
  rw [fmtDigits, padDigits_length]
  omega

theorem digitsValN_fmtDigits (N : ℤ) (k : ℕ) :
    digitsValN (fmtDigits N k) = N.natAbs := by
  rw [fmtDigits, digitsValN_padDigits, digitsValN_natDigits]

theorem isDigitC_digitChar (d : ℕ) : isDigitC (digitChar d) = true := by
  unfold digitChar
  split_ifs <;> rfl

theorem digVal_digitChar (d : ℕ) (h : d < 10) : digVal (digitChar d) = d := by
  unfold digitChar
  split_ifs <;> subst_vars <;>
    first
    | rfl
    | (have hd : d = 9 := by omega
       subst hd
       rfl)

/-- A digit character is not one of the punctuation characters we care
about. -/
theorem ne_of_isDigitC {c c0 : Char} (h : isDigitC c = true)
    (h0 : isDigitC c0 = false) : c ≠ c0 := by
  intro he
  rw [he, h0] at h
  exact Bool.false_ne_true h

theorem digitsValC_map_digitChar :
    ∀ (l : List ℕ), (∀ d ∈ l, d < 10) → ∀ acc : ℕ,
      (l.map digitChar).foldl (fun a c => 10 * a + digVal c) acc =
        l.foldl (fun a d => 10 * a + d) acc := by
  intro l
  induction l with
  | nil => intro _ acc; rfl
  | cons d l ih =>
      intro h acc
      simp only [List.map_cons, List.foldl_cons]
      rw [digVal_digitChar d (h d (List.mem_cons_self d l))]
      exact ih (fun x hx => h x (List.mem_cons_of_mem d hx)) _

theorem takeWhile_append_stop {p : Char → Bool} :
    ∀ (xs : List Char) (y : Char) (ys : List Char),
      (∀ c ∈ xs, p c = true) → p y = false →
      (xs ++ y :: ys).takeWhile p = xs ∧
        (xs ++ y :: ys).dropWhile p = y :: ys := by
  intro xs
  induction xs with
  | nil =>
      intro y ys _ hy
      constructor
      · simp [List.takeWhile_cons, hy]
      · simp [List.dropWhile_cons, hy]
  | cons x xs ih =>
      intro y ys hall hy
      have hx : p x = true := hall x (List.mem_cons_self x xs)
      have hrest := ih y ys (fun c hc => hall c (List.mem_cons_of_mem x hc)) hy
      constructor
      · simp [List.takeWhile_cons, hx, hrest.1]
      · simp [List.dropWhile_cons, hx, hrest.2]

theorem digitsValC_map {l : List ℕ} (h : ∀ d ∈ l, d < 10) :
    digitsValC (l.map digitChar) = digitsValN l := by
  unfold digitsValC digitsValN
  exact digitsValC_map_digitChar l h 0

/-- `parseCore` on digits, a point, digits. -/
theorem parseCore_split {xs ys : List Char}
    (hxs : ∀ c ∈ xs, isDigitC c = true) (hys : ∀ c ∈ ys, isDigitC c = true)
    (hne : xs ≠ []) :
    parseCore (xs ++ '.' :: ys) =
      some (Rat.divInt (digitsValC (xs ++ ys)) (10 ^ ys.length)) := by
  obtain ⟨htw, hdw⟩ := takeWhile_append_stop xs '.' ys hxs (by decide)
  have hxe : xs.isEmpty = false := by
    cases xs with
    | nil => exact absurd rfl hne
    | cons a l => rfl
  unfold parseCore
  rw [htw, hdw, if_neg (by simp)]
  simp only [List.head?_cons, List.tail_cons, if_true]
  rw [if_pos]
  rw [Bool.and_eq_true, List.all_eq_true]
  refine ⟨hys, ?_⟩
  rw [hxe]
  rfl

/-- `parseCore` applied to the body of the decimal rendering. -/
theorem parseCore_fmtBody (N : ℤ) (k : ℕ) :
    parseCore (fmtBody N k) =
      some (Rat.divInt (N.natAbs : ℤ) ((10 : ℤ) ^ k)) := by
  have hlen := fmtDigits_length N k
  have hxs : ∀ c ∈ ((fmtDigits N k).take ((fmtDigits N k).length - k)).map
      digitChar, isDigitC c = true := by
    intro c hc
    obtain ⟨d, -, rfl⟩ := List.mem_map.mp hc
    exact isDigitC_digitChar d
  have hys : ∀ c ∈ ((fmtDigits N k).drop ((fmtDigits N k).length - k)).map
      digitChar, isDigitC c = true := by
    intro c hc
    obtain ⟨d, -, rfl⟩ := List.mem_map.mp hc
    exact isDigitC_digitChar d
  have hne : ((fmtDigits N k).take ((fmtDigits N k).length - k)).map
      digitChar ≠ [] := by
    intro hcon
    have hl := congrArg List.length hcon
    simp only [List.length_map, List.length_take, List.length_nil] at hl
    omega
  have hflen : (((fmtDigits N k).drop ((fmtDigits N k).length - k)).map
      digitChar).length = k := by
    simp only [List.length_map, List.length_drop]
    omega
  unfold fmtBody
  rw [parseCore_split hxs hys hne, ← List.map_append,
    digitsValC_map (by
      intro d hd
      rcases List.mem_append.mp hd with h1 | h1
      · exact fmtDigits_lt N k d (List.mem_of_mem_take h1)
      · exact fmtDigits_lt N k d (List.mem_of_mem_drop h1)),
    List.take_append_drop, digitsValN_fmtDigits, hflen]

theorem parseChars_cons_digit {c : Char} {l : List Char}
    (h : isDigitC c = true) : parseChars (c :: l) = parseCore (c :: l) := by
  unfold parseChars
  rw [if_neg, if_neg]
  · simp only [List.head?_cons, Option.some.injEq]
    exact ne_of_isDigitC h (by decide)
  · simp only [List.head?_cons, Option.some.injEq]
    exact ne_of_isDigitC h (by decide)

theorem fmtBody_cons (N : ℤ) (k : ℕ) :
    ∃ c cs, fmtBody N k = c :: cs ∧ isDigitC c = true := by
  have hlen := fmtDigits_length N k
  have hne : ((fmtDigits N k).take ((fmtDigits N k).length - k)).map
      digitChar ≠ [] := by
    intro hcon
    have hl := congrArg List.length hcon
    simp only [List.length_map, List.length_take, List.length_nil] at hl
    omega
  obtain ⟨c, cs0, hcons⟩ := List.exists_cons_of_ne_nil hne
  have hc : isDigitC c = true := by
    have : c ∈ ((fmtDigits N k).take ((fmtDigits N k).length - k)).map
        digitChar := by
      rw [hcons]
      exact List.mem_cons_self c cs0
    obtain ⟨d, -, rfl⟩ := List.mem_map.mp this
    exact isDigitC_digitChar d
  refine ⟨c, cs0 ++ '.' :: ((fmtDigits N k).drop
    ((fmtDigits N k).length - k)).map digitChar, ?_, hc⟩
  unfold fmtBody
  rw [hcons, List.cons_append]

/-- `parseChars` recovers the exact value `N / 10 ^ k` from the rendering. -/
theorem parseChars_fmtDecimal (N : ℤ) (k : ℕ) :
    parseChars (fmtDecimal N k) =
      some (Rat.divInt N ((10 : ℤ) ^ k)) := by
  rcases lt_or_ge N 0 with hN | hN
  · unfold fmtDecimal
    rw [if_pos hN]
    unfold parseChars
    simp only [List.head?_cons, List.tail_cons, if_true]
    rw [parseCore_fmtBody, Option.map_some']
    rw [Rat.neg_divInt]
    have hval : (-(N.natAbs : ℤ)) = N := by omega
    rw [hval]
  · unfold fmtDecimal
    rw [if_neg (not_lt.mpr hN)]
    obtain ⟨c, cs, hcons, hc⟩ := fmtBody_cons N k
    rw [hcons, parseChars_cons_digit hc, ← hcons, parseCore_fmtBody]
    congr 2
    exact Int.natAbs_of_nonneg hN

/-- Exactness: when the denominator divides the chosen power of ten, the
rendered integer recovers the original rational. -/
theorem divInt_fmt_eq {q : ℚ} (h : (q.den : ℕ) ∣ 10 ^ q.den) :
    Rat.divInt (q.num * ((10 : ℤ) ^ q.den / (q.den : ℤ)))
      ((10 : ℤ) ^ q.den) = q := by
  set c : ℤ := (10 : ℤ) ^ q.den / (q.den : ℤ) with hc
  have hz : (q.den : ℤ) ∣ (10 : ℤ) ^ q.den := by
    have := Int.natCast_dvd_natCast.mpr h
    push_cast at this
    exact this
  have hmul : (q.den : ℤ) * c = (10 : ℤ) ^ q.den := Int.mul_ediv_cancel' hz
  have hcz : c ≠ 0 := by
    intro h0
    rw [h0, mul_zero] at hmul
    exact absurd hmul.symm (pow_ne_zero _ (by norm_num))
  have hcq : ((c : ℤ) : ℚ) ≠ 0 := Int.cast_ne_zero.mpr hcz
  rw [Rat.divInt_eq_div, ← hmul]
  push_cast
  rw [mul_div_mul_right _ _ hcq]
  exact Rat.num_div_den q

theorem fmtFloat_data (q : ℚ) :
    (fmtFloat q).data =
      fmtDecimal (q.num * ((10 : ℤ) ^ q.den / (q.den : ℤ))) q.den := rfl

theorem dot_mem_fmtBody (N : ℤ) (k : ℕ) : '.' ∈ fmtBody N k := by
  unfold fmtBody
  exact List.mem_append_right _ (List.mem_cons_self _ _)

theorem dot_mem_fmtDecimal (N : ℤ) (k : ℕ) : '.' ∈ fmtDecimal N k := by
  unfold fmtDecimal
  split
  · exact List.mem_cons_of_mem _ (dot_mem_fmtBody N k)
  · exact dot_mem_fmtBody N k

/-- The rendering of a number is never one of the sentinel strings (they
contain no decimal point). -/
theorem fmtFloat_ne {s : String} (hs : '.' ∉ s.data) (q : ℚ) :
    fmtFloat q ≠ s := by
  intro h
  have hdata : (fmtFloat q).data = s.data := congrArg String.data h
  rw [fmtFloat_data] at hdata
  exact hs (hdata ▸ dot_mem_fmtDecimal _ _)

/-- The round trip: rendering a parse-produced number as a string and
re-parsing it recovers the number, as Python's float repr does. -/
theorem floatParse_fmtFloat {q : ℚ} (h : (q.den : ℕ) ∣ 10 ^ q.den) :
    floatParse (fmtFloat q) = .num q := by
  unfold floatParse
  rw [if_neg (fmtFloat_ne (by decide) q), if_neg (fmtFloat_ne (by decide) q)]
  rw [fmtFloat_data, parseChars_fmtDecimal, divInt_fmt_eq h]

/-! ## Fixpoint lemmas: the column transforms fix already-cleaned cells -/

theorem fmtBody_chars (N : ℤ) (k : ℕ) :
    ∀ c ∈ fmtBody N k, isDigitC c = true ∨ c = '.' := by
  intro c hc
  unfold fmtBody at hc
  rcases List.mem_append.mp hc with h1 | h1
  · obtain ⟨d, -, rfl⟩ := List.mem_map.mp h1
    exact Or.inl (isDigitC_digitChar d)
  · rcases List.mem_cons.mp h1 with h2 | h2
    · exact Or.inr h2
    · obtain ⟨d, -, rfl⟩ := List.mem_map.mp h2
      exact Or.inl (isDigitC_digitChar d)

theorem fmtDecimal_chars (N : ℤ) (k : ℕ) :
    ∀ c ∈ fmtDecimal N k, isDigitC c = true ∨ c = '-' ∨ c = '.' := by
  intro c hc
  unfold fmtDecimal at hc
  split at hc
  · rcases List.mem_cons.mp hc with h2 | h2
    · exact Or.inr (Or.inl h2)
    · rcases fmtBody_chars N k c h2 with h3 | h3
      · exact Or.inl h3
      · exact Or.inr (Or.inr h3)
  · rcases fmtBody_chars N k c hc with h3 | h3
    · exact Or.inl h3
    · exact Or.inr (Or.inr h3)

theorem removeChar_eq_self {c : Char} {s : String}
    (h : ∀ x ∈ s.data, x ≠ c) : removeChar c s = s := by
  unfold removeChar
  cases s with
  | mk l =>
      congr 1
      exact List.filter_eq_self.mpr (fun a ha => by
        simpa using h a ha)

/-- Removing a punctuation character from a rendered number changes
nothing: its characters are digits, the minus sign and the point. -/
theorem removeChar_fmtFloat {c0 : Char} (h0 : isDigitC c0 = false)
    (h1 : c0 ≠ '-') (h2 : c0 ≠ '.') (q : ℚ) :
    removeChar c0 (fmtFloat q) = fmtFloat q := by
  apply removeChar_eq_self
  intro x hx
  rw [fmtFloat_data] at hx
  rcases fmtDecimal_chars _ _ x hx with hd | hd | hd
  · exact ne_of_isDigitC hd h0
  · exact fun he => h1 (by rw [← he, hd])
  · exact fun he => h2 (by rw [← he, hd])

theorem pyStr_num (q : ℚ) : pyStr (.num q) = fmtFloat q := rfl

theorem cleanInstallsCell_num {q : ℚ} (h : (q.den : ℕ) ∣ 10 ^ q.den) :
    cleanInstallsCell (.num q) = .num q := by
  rw [cleanInstallsCell_eq, pyStr_num,
    removeChar_fmtFloat (by decide) (by decide) (by decide) q,
    removeChar_fmtFloat (by decide) (by decide) (by decide) q]
  exact floatParse_fmtFloat h

theorem cleanInstallsCell_inf (b : Bool) :
    cleanInstallsCell (.inf b) = .inf b := by
  cases b <;> rfl

theorem reSubEndAnchor_empty (s : String) : reSubEndAnchor s "" = s :=
  String.append_empty s

theorem cleanPriceCell_num {q : ℚ} (h : (q.den : ℕ) ∣ 10 ^ q.den) :
    cleanPriceCell (.num q) = .num q := by
  rw [cleanPriceCell_eq, pyStr_num, reSubEndAnchor_empty]
  exact floatParse_fmtFloat h

theorem cleanPriceCell_inf (b : Bool) : cleanPriceCell (.inf b) = .inf b := by
  cases b <;> rfl

theorem cleanSizeCell_null : cleanSizeCell .null = .null := by decide

theorem cleanSizeCell_inf (b : Bool) : cleanSizeCell (.inf b) = .inf b := by
  cases b <;> rfl

theorem cleanSizeCell_num {q : ℚ} (h : (q.den : ℕ) ∣ 10 ^ q.den) :
    cleanSizeCell (.num q) = .num q := by
  unfold cleanSizeCell
  rw [pyStr_num,
    removeChar_fmtFloat (by decide) (by decide) (by decide) q,
    removeChar_fmtFloat (by decide) (by decide) (by decide) q,
    removeChar_fmtFloat (by decide) (by decide) (by decide) q,
    if_neg (fmtFloat_ne (by decide) q)]
  exact floatParse_fmtFloat h

theorem transformRow_popularity (x : Row) :
    (transformRow x).popularityScore = x.popularityScore := rfl

theorem addScore_addScore (x : Row) : addScore (addScore x) = addScore x := rfl

theorem map_eq_self {α : Type} {l : List α} {f : α → α}
    (h : ∀ a ∈ l, f a = a) : l.map f = l := by
  induction l with
  | nil => rfl
  | cons a l ih =>
      rw [List.map_cons, h a (List.mem_cons_self a l),
        ih (fun x hx => h x (List.mem_cons_of_mem a hx))]

/-- The column transforms fix every row of a cleaned table. -/
theorem transformRow_mem_fix {t : List Row} {r : Row}
    (h : r ∈ cleanTable t) : transformRow r = r := by
  obtain ⟨r0, -, -, -, hess, hr⟩ := cleanTable_row_cases h
  obtain ⟨-, hins, hrev, hpr, -, -⟩ := essentials_unpack hess
  subst hr
  ext
  · exact transformRow_app _
  · exact transformRow_category _
  · exact transformRow_rating _
  · have h1 : (addScore (transformRow r0)).reviews =
        cleanReviewsCell r0.reviews := rfl
    rw [transformRow_reviews, h1, cleanReviewsCell_eq, cleanReviewsCell_eq]
    rcases toNumeric_shape r0.reviews with h2 | ⟨b, h2⟩ | ⟨q, h2⟩
    · exfalso
      rw [transformRow_reviews, cleanReviewsCell_eq, h2] at hrev
      simp [isNullB] at hrev
    · rw [h2]
      rfl
    · rw [h2]
      rfl
  · have h1 : (addScore (transformRow r0)).size = cleanSizeCell r0.size := rfl
    rw [transformRow_size, h1]
    rcases cleanSizeCell_shape r0.size with h2 | ⟨b, h2⟩ | ⟨q, h2, hd⟩
    · rw [h2]
      exact cleanSizeCell_null
    · rw [h2]
      exact cleanSizeCell_inf b
    · rw [h2]
      exact cleanSizeCell_num hd
  · have h1 : (addScore (transformRow r0)).installs =
        cleanInstallsCell r0.installs := rfl
    rw [transformRow_installs, h1]
    rcases floatParse_shape (removeChar ',' (removeChar '+' (pyStr
        r0.installs))) with h2 | ⟨b, h2⟩ | ⟨q, h2, hd⟩
    · exfalso
      rw [transformRow_installs, cleanInstallsCell_eq, h2] at hins
      simp [isNullB] at hins
    · have h2' : cleanInstallsCell r0.installs = PVal.inf b := by
        rw [cleanInstallsCell_eq]
        exact h2
      rw [h2']
      exact cleanInstallsCell_inf b
    · have h2' : cleanInstallsCell r0.installs = PVal.num q := by
        rw [cleanInstallsCell_eq]
        exact h2
      rw [h2']
      exact cleanInstallsCell_num hd
  · exact transformRow_type _
  · have h1 : (addScore (transformRow r0)).price =
        cleanPriceCell r0.price := rfl
    rw [transformRow_price, h1]
    rcases floatParse_shape (reSubEndAnchor (pyStr r0.price) "") with
      h2 | ⟨b, h2⟩ | ⟨q, h2, hd⟩
    · exfalso
      rw [transformRow_price, cleanPriceCell_eq, h2] at hpr
      simp [isNullB] at hpr
    · have h2' : cleanPriceCell r0.price = PVal.inf b := by
        rw [cleanPriceCell_eq]
        exact h2
      rw [h2']
      exact cleanPriceCell_inf b
    · have h2' : cleanPriceCell r0.price = PVal.num q := by
        rw [cleanPriceCell_eq]
        exact h2
      rw [h2']
      exact cleanPriceCell_num hd
  · exact transformRow_popularity _

/-- C9: the cleaning pipeline is idempotent — it is a pure function, so two
runs on the same raw input give the same table, and re-applying the whole
pipeline (corrupted-row drop, column normalizations, null-drop, popularity
derivation) to its own output leaves the table unchanged. -/
theorem cleaning_idempotent :
    (∀ raw : List Row, cleanTable raw = cleanTable raw) ∧
    ∀ raw : List Row, cleanTable (cleanTable raw) = cleanTable raw := by
  refine ⟨fun _ => rfl, fun raw => ?_⟩
  have happ : ∀ r ∈ cleanTable raw,
      (!eqStrB r.app "Life Made Better") = true := by
    intro r h
    obtain ⟨r0, -, ha, -, -, hr⟩ := cleanTable_row_cases h
    subst hr
    rw [addScore_app, transformRow_app, ha]
    rfl
  have hcat : ∀ r ∈ cleanTable raw, (!eqStrB r.category "1.9") = true := by
    intro r h
    obtain ⟨r0, -, -, hc, -, hr⟩ := cleanTable_row_cases h
    subst hr
    rw [addScore_category, transformRow_category, hc]
    rfl
  have hdropfix : dropCorrupted (cleanTable raw) = cleanTable raw := by
    unfold dropCorrupted
    rw [List.filter_eq_self.mpr happ]
    exact List.filter_eq_self.mpr hcat
  have hessfix : ∀ r ∈ cleanTable raw, essentials r = true := by
    intro r h
    obtain ⟨r0, -, -, -, hess, hr⟩ := cleanTable_row_cases h
    subst hr
    rw [essentials_addScore]
    exact hess
  have haddfix : ∀ r ∈ cleanTable raw, addScore r = r := by
    intro r h
    obtain ⟨r0, -, -, -, -, hr⟩ := cleanTable_row_cases h
    subst hr
    exact addScore_addScore _
  have hunfold : cleanTable (cleanTable raw) =
      (((dropCorrupted (cleanTable raw)).map transformRow).filter
        essentials).map addScore := rfl
  rw [hunfold, hdropfix,
    map_eq_self (fun r h => transformRow_mem_fix h),
    List.filter_eq_self.mpr hessfix,
    map_eq_self haddfix]

end PlayStore
